import Mathlib

/-!
Verification of the dlcut media-download core against its specification.

The Rust sources under `src-tauri/src` are shallowly embedded:

* `types.rs`   → `ProgressStage`, `ProgressUpdate`
* `error.rs`   → `AppError` with its `Display` rendering
* `ytdlp.rs`   → the download-progress line handling of `download_video`
* `ffmpeg.rs`  → `cut_video` / `cut_video_reencode` supervision and the
  `out_time_ms` progress computation
* `commands.rs`→ `start_download` / `cancel_download` and the active-job slot
* `fileserver.rs` → `FileServer::handle_connection`

Machine integers are modelled as `Nat` with explicit `% 2 ^ 64` where u64
wraparound matters; Rust `f64` values that claims quantify over (percentages)
are modelled as exact rationals `ℚ`.  Rust regular expressions are embedded by
a small leftmost-first matching engine (`RE`, `runRE`, `reFind`) whose
preference order matches the semantics of the `regex` crate (lazy/greedy
repetition, optional groups preferring the matched branch, leftmost match).
-/

/-- `types.rs` `ProgressStage`. -/
inductive ProgressStage where
  | Fetching
  | Downloading
  | Cutting
  | Complete
  | Error
deriving DecidableEq, Repr

/-- `types.rs` `ProgressUpdate`; `percent` is the Rust `f64` modelled as `ℚ`. -/
structure ProgressUpdate where
  stage : ProgressStage
  percent : ℚ
  message : String
  speed : Option String
  eta : Option String
deriving DecidableEq, Repr

/-- `error.rs` `AppError`. -/
inductive AppError where
  | InvalidUrl
  | FetchError (s : String)
  | DownloadError (s : String)
  | CutError (s : String)
  | InvalidTimestamp (s : String)
  | YtDlpNotFound
  | FfmpegNotFound
  | DependencyError (s : String)
  | Cancelled
  | Internal (s : String)
deriving DecidableEq, Repr

/-- The `thiserror` `Display` rendering of `AppError` (Rust `to_string()`). -/
def AppError.display : AppError → String
  | .InvalidUrl => "Invalid YouTube URL"
  | .FetchError s => "Failed to fetch video information: " ++ s
  | .DownloadError s => "Download failed: " ++ s
  | .CutError s => "Failed to cut video: " ++ s
  | .InvalidTimestamp s => "Invalid timestamp: " ++ s
  | .YtDlpNotFound => "yt-dlp not found. Please ensure yt-dlp is installed and in PATH"
  | .FfmpegNotFound => "ffmpeg not found. Please ensure ffmpeg is installed and in PATH"
  | .DependencyError s => "Dependency error: " ++ s
  | .Cancelled => "Operation cancelled"
  | .Internal _ => "Internal error"

/-! ## A leftmost-first regular-expression engine

The Rust `regex` crate implements leftmost-first (preference-order) match
semantics.  The two patterns used by the repository only ever repeat single
character classes, so the engine supports literals, character classes,
lazy/greedy character-class stars, sequencing, greedy option, and numbered
capture groups.  `runRE` returns every way the pattern can match a prefix of
the input, in preference order; the overall match is the head of that list. -/

/-- Capture state: the three numbered groups used by the repository. -/
structure Caps where
  g1 : Option (List Char) := none
  g2 : Option (List Char) := none
  g3 : Option (List Char) := none
deriving DecidableEq, Repr

/-- Record a capture for group `n`. -/
def Caps.set (c : Caps) (n : Nat) (v : List Char) : Caps :=
  match n with
  | 1 => { c with g1 := some v }
  | 2 => { c with g2 := some v }
  | 3 => { c with g3 := some v }
  | _ => c

/-- Regular-expression syntax (character-class repetitions only). -/
inductive RE where
  | lit (l : List Char)
  | cls (p : Char → Bool)
  | starL (p : Char → Bool)
  | starG (p : Char → Bool)
  | seq (a b : RE)
  | option (a : RE)
  | grp (n : Nat) (a : RE)

/-- Length of the maximal run of characters satisfying `p`. -/
def runLen (p : Char → Bool) : List Char → Nat
  | [] => 0
  | c :: t => if p c then runLen p t + 1 else 0

/-- All matches of a pattern against a prefix of `s`, in preference order:
each element is the capture state together with the unconsumed suffix. -/
def runRE : RE → Caps → List Char → List (Caps × List Char)
  | .lit l, c, s =>
    if l.isPrefixOf s then [(c, s.drop l.length)] else []
  | .cls p, c, s =>
    match s with
    | [] => []
    | x :: t => if p x then [(c, t)] else []
  | .starL p, c, s =>
    (List.range (runLen p s + 1)).map fun k => (c, s.drop k)
  | .starG p, c, s =>
    ((List.range (runLen p s + 1)).reverse).map fun k => (c, s.drop k)
  | .seq a b, c, s =>
    (runRE a c s).flatMap fun x => runRE b x.1 x.2
  | .option a, c, s =>
    runRE a c s ++ [(c, s)]
  | .grp n a, c, s =>
    (runRE a c s).map fun x => (x.1.set n (s.take (s.length - x.2.length)), x.2)

/-- Leftmost search: try each start position in order, taking the most
preferred match at the first position that matches at all (the `regex`
crate's `captures`). -/
def reFind (r : RE) : List Char → Option Caps
  | [] =>
    match runRE r {} [] with
    | (c, _) :: _ => some c
    | [] => none
  | a :: t =>
    match runRE r {} (a :: t) with
    | (c, _) :: _ => some c
    | [] => reFind r t

/-- Patterns containing no capture group at all. -/
def grpFree : RE → Bool
  | .lit _ => true
  | .cls _ => true
  | .starL _ => true
  | .starG _ => true
  | .seq a b => grpFree a && grpFree b
  | .option a => grpFree a
  | .grp _ _ => false

/-- Patterns that never write capture group 1. -/
def g1Free : RE → Bool
  | .lit _ => true
  | .cls _ => true
  | .starL _ => true
  | .starG _ => true
  | .seq a b => g1Free a && g1Free b
  | .option a => g1Free a
  | .grp n a => decide (n ≠ 1) && g1Free a

/-! ## `ytdlp.rs`: the download-progress line parser

`download_video` matches each stdout line against
`\[download\]\s+(\d+\.?\d*)%.*?(\d+\.?\d*\w+/s)?.*?ETA\s+(\S+)?`
and, on a match, sends a `Downloading` update built from the three captures.
Character classes are modelled at their ASCII denotations (the lines the tool
emits are ASCII in the relevant places). -/

/-- `\s` (modelled on ASCII whitespace). -/
def isSpaceChar (c : Char) : Bool := c.isWhitespace

/-- `\w` (modelled on ASCII word characters). -/
def isWordChar (c : Char) : Bool := c.isAlphanum || c == '_'

/-- `.` in a regex: any character except a newline. -/
def isDotChar (c : Char) : Bool := c != '\n'

/-- `\S`. -/
def isNonSpace (c : Char) : Bool := !c.isWhitespace

/-- `p+` (greedy). -/
def rePlus (p : Char → Bool) : RE := .seq (.cls p) (.starG p)

/-- `\d+\.?\d*`. -/
def numRE : RE :=
  .seq (rePlus Char.isDigit)
    (.seq (.option (.cls fun c => c == '.')) (.starG Char.isDigit))

/-- `\d+\.?\d*\w+/s` — the transfer-speed token. -/
def speedRE : RE := .seq numRE (.seq (rePlus isWordChar) (.lit "/s".toList))

/-- The tail of the download pattern after the mandatory `%`:
`.*?(speed)?.*?ETA\s+(\S+)?`. -/
def progressTailRE : RE :=
  .seq (.starL isDotChar)
    (.seq (.option (.grp 2 speedRE))
      (.seq (.starL isDotChar)
        (.seq (.lit "ETA".toList)
          (.seq (rePlus isSpaceChar) (.option (.grp 3 (rePlus isNonSpace)))))))

/-- `ytdlp.rs` `progress_regex`:
`\[download\]\s+(\d+\.?\d*)%.*?(\d+\.?\d*\w+/s)?.*?ETA\s+(\S+)?`. -/
def progress_regex : RE :=
  .seq (.lit "[download]".toList)
    (.seq (rePlus isSpaceChar)
      (.seq (.grp 1 numRE) (.seq (.lit ['%']) progressTailRE)))

/-- Value of a digit string. -/
def digitsVal (l : List Char) : Nat :=
  l.foldl (fun a c => a * 10 + (c.toNat - '0'.toNat)) 0

/-- Rust `str::parse::<f64>` restricted to the decimal shapes `\d+\.?\d*`
the percentage capture can take, as an exact rational. -/
def decimalValue (l : List Char) : Option ℚ :=
  let ip := l.takeWhile Char.isDigit
  let rest := l.drop ip.length
  if ip = [] then none
  else
    match rest with
    | [] => some (digitsVal ip)
    | '.' :: fp =>
      if fp.all Char.isDigit then
        some ((digitsVal ip : ℚ) + (digitsVal fp : ℚ) / (10 ^ fp.length))
      else none
    | _ => none

/-- Rust `format!` `{:.1}` on a non-negative value: one fractional digit
(float formatting modelled by exact decimal rounding). -/
def fmtFixed1 (q : ℚ) : String :=
  let n : ℤ := round (q * 10)
  let m := n.natAbs
  (if n < 0 then "-" else "") ++ toString (m / 10) ++ "." ++ toString (m % 10)

/-- The per-line progress handling in `ytdlp.rs` `download_video`
(lines 427–445): on a regex match, the `Downloading` update built from the
captures; otherwise no update. -/
def parse_progress_line (line : String) : Option ProgressUpdate :=
  (reFind progress_regex line.toList).map fun caps =>
    let percent : ℚ := (caps.g1.bind decimalValue).getD 0
    { stage := .Downloading
      percent := percent
      message := "Downloading... " ++ fmtFixed1 percent ++ "%"
      speed := caps.g2.map String.mk
      eta := caps.g3.map String.mk }

/-! ## `ytdlp.rs` `download_video` and the `commands.rs` download task

`download_video` is modelled on the environment it observes: the stdout lines
of the spawned yt-dlp process and its exit status.  The returned pair is the
sequence of updates sent to the progress channel and the function result.
In the source every branch of the `--download-sections` construction sets
`needs_postprocess_cut` to `false`, so the final update on success is always
the `Complete` one. -/

/-- The update sent before spawning yt-dlp (`ytdlp.rs` lines 383–391). -/
def downloadStartUpdate : ProgressUpdate :=
  { stage := .Downloading, percent := 0, message := "Starting download...",
    speed := none, eta := none }

/-- The final update on successful exit (`needs_postprocess_cut` is `false`
on every path). -/
def downloadDoneUpdate : ProgressUpdate :=
  { stage := .Complete, percent := 100, message := "Download complete!",
    speed := none, eta := none }

/-- `ytdlp.rs` `download_video` after a successful spawn: progress updates
sent and result, as a function of the child's stdout lines and exit status. -/
def download_video_model (stdoutLines : List String) (exitSuccess : Bool)
    (output_path : String) : List ProgressUpdate × Except AppError String :=
  let sent := downloadStartUpdate :: stdoutLines.filterMap parse_progress_line
  if exitSuccess then (sent ++ [downloadDoneUpdate], .ok output_path)
  else (sent, .error (.DownloadError "Download failed"))

/-- Events the `commands.rs` download task emits to the app handle. -/
inductive AppEvent where
  | progress (u : ProgressUpdate)
  | downloadComplete (path : String)
  | downloadError (msg : String)
deriving DecidableEq, Repr

/-- Whether an event is an `Error`-stage progress update. -/
def AppEvent.isErrorProgress : AppEvent → Bool
  | .progress u => u.stage == .Error
  | _ => false

/-- The `commands.rs` spawned download task (lines 159–190): forwards every
channel update as a `progress` event, then emits the final event(s) according
to the result of `download_video`. -/
def start_download_task_events (updates : List ProgressUpdate)
    (result : Except AppError String) (output_path : String) : List AppEvent :=
  updates.map .progress ++
    match result with
    | .ok _ => [.downloadComplete output_path]
    | .error e =>
      [.progress { stage := .Error, percent := 0, message := e.display,
                   speed := none, eta := none },
       .downloadError e.display]

/-! ## `ffmpeg.rs`: cut supervision and progress -/

/-- `out_time_ms=(\d+)`. -/
def out_time_regex : RE :=
  .seq (.lit "out_time_ms=".toList) (.grp 1 (rePlus Char.isDigit))

/-- Rust `str::parse::<u64>`: optional leading `+`, decimal digits only,
value within `u64` range. -/
def parse_u64 (s : List Char) : Option Nat :=
  let t := match s with
    | '+' :: r => r
    | _ => s
  if t ≠ [] ∧ t.all Char.isDigit ∧ digitsVal t < 2 ^ 64 then some (digitsVal t)
  else none

/-- `caps.get(1).and_then(|m| m.as_str().parse::<u64>().ok())` applied to
the leftmost `out_time_ms=` match of a line. -/
def out_time_of (line : String) : Option Nat :=
  (reFind out_time_regex line.toList).bind fun caps => caps.g1.bind parse_u64

/-- Rust `format!` `{:.0}` on a non-negative value (float formatting modelled
by exact rounding). -/
def fmtFixed0 (q : ℚ) : String := toString (round q : ℤ)

/-- The percent computation shared by `cut_video` (lines 113–117) and
`cut_video_reencode` (lines 209–213): `(time_ms / total_us * 100).min(100)`
when `total_us > 0`, else `0`. -/
def cut_progress_percent (time_ms total_us : Nat) : ℚ :=
  if 0 < total_us then min ((time_ms : ℚ) / (total_us : ℚ) * 100) 100 else 0

/-- Per-line cut progress: an update is sent only when the line carries an
`out_time_ms=<N>` marker whose digits parse as `u64`. -/
def parse_cut_progress_line (verb : String) (total_us : Nat) (line : String) :
    Option ProgressUpdate :=
  (out_time_of line).map fun time_ms =>
    let percent := cut_progress_percent time_ms total_us
    { stage := .Cutting, percent := percent,
      message := verb ++ fmtFixed0 percent ++ "%", speed := none, eta := none }

/-- Which ffmpeg invocation a cut job ran. -/
inductive CutStrategy where
  | streamCopy
  | reencode
deriving DecidableEq, Repr

/-- First update of `cut_video` (lines 62–70). -/
def cutStartUpdate : ProgressUpdate :=
  { stage := .Cutting, percent := 0, message := "Starting video cut...",
    speed := none, eta := none }

/-- First update of `cut_video_reencode` (lines 162–170). -/
def reencodeStartUpdate : ProgressUpdate :=
  { stage := .Cutting, percent := 0,
    message := "Re-encoding video (this may take longer)...",
    speed := none, eta := none }

/-- Final update of either cut path on success. -/
def cutCompleteUpdate : ProgressUpdate :=
  { stage := .Complete, percent := 100, message := "Cut complete!",
    speed := none, eta := none }

/-- `ffmpeg.rs` `cut_video_reencode` after a successful spawn, as a function
of the fallback process's stdout lines and exit status. -/
def cut_video_reencode_model (stdoutLines : List String) (exitSuccess : Bool)
    (total_us : Nat) (output_path : String) :
    List ProgressUpdate × Except AppError String :=
  let sent := reencodeStartUpdate ::
    stdoutLines.filterMap (parse_cut_progress_line "Re-encoding... " total_us)
  if exitSuccess then (sent ++ [cutCompleteUpdate], .ok output_path)
  else (sent, .error (.CutError "ffmpeg encoding failed"))

/-- `ffmpeg.rs` `cut_video`: runs the stream-copy invocation; on non-zero
exit it tail-calls `cut_video_reencode` (line 138).  The first component
records which invocations were spawned, in order. -/
def cut_video_model (inputExists : Bool) (primaryLines fallbackLines : List String)
    (primaryExit fallbackExit : Bool) (total_us : Nat) (output_path : String) :
    List CutStrategy × List ProgressUpdate × Except AppError String :=
  if ¬ inputExists then ([], [], .error (.CutError "Input file not found"))
  else
    let sent := cutStartUpdate ::
      primaryLines.filterMap (parse_cut_progress_line "Cutting video... " total_us)
    if primaryExit then ([.streamCopy], sent ++ [cutCompleteUpdate], .ok output_path)
    else
      let fb := cut_video_reencode_model fallbackLines fallbackExit total_us output_path
      ([.streamCopy, .reencode], sent ++ fb.1, fb.2)

/-! ## `commands.rs`: the active-job slot -/

/-- `commands.rs` `AppState`: the guarded slot holding the running task
handle (`JoinHandle` abstracted to a numeric id). -/
structure AppState where
  active_download : Option Nat
deriving DecidableEq, Repr

/-- `commands.rs` `start_download` up to the spawn decision, sequentially:
URL validation (the collaborator `validate_youtube_url`, abstracted to its
outcome), then the guarded already-active check (lines 130–136), then spawn
and store.  The middle component records whether a download task (and hence
a child process) was spawned. -/
def start_download_model (urlValid : Bool) (st : AppState) (newHandle : Nat) :
    AppState × Bool × Except AppError Unit :=
  if ¬ urlValid then (st, false, .error .InvalidUrl)
  else if st.active_download.isSome then
    (st, false, .error (.DownloadError "A download is already in progress"))
  else ({ active_download := some newHandle }, true, .ok ())

/-- `commands.rs` `cancel_download` (lines 202–211): take the handle and
abort it, or fail with `Cancelled` leaving the state unchanged. -/
def cancel_download_model (st : AppState) : AppState × Except AppError Unit :=
  match st.active_download with
  | some _ => ({ active_download := none }, .ok ())
  | none => (st, .error .Cancelled)

/-- The two mutex-guarded writes to the slot that race after the
already-active check passed: `start_download` storing the handle
(lines 193–196) and the spawned task clearing the slot when it ends
(lines 187–189). -/
inductive SlotStep where
  | store (h : Nat)
  | clear
deriving DecidableEq, Repr

/-- Execute a schedule of guarded slot writes. -/
def run_slot_steps : List SlotStep → Option Nat → Option Nat
  | [], s => s
  | .store h :: t, _ => run_slot_steps t (some h)
  | .clear :: t, _ => run_slot_steps t none

/-- All interleavings of two step sequences, with a structural fuel bound of
the total length (the task is spawned before the handle is stored, so the
mutex admits either order of the two writes). -/
def interleavingsF : Nat → List SlotStep → List SlotStep → List (List SlotStep)
  | _, [], ys => [ys]
  | _, x :: xs, [] => [x :: xs]
  | 0, xs, ys => [xs ++ ys]
  | f + 1, x :: xs, y :: ys =>
    (interleavingsF f xs (y :: ys)).map (x :: ·) ++
      (interleavingsF f (x :: xs) ys).map (y :: ·)

/-- All interleavings of two step sequences. -/
def interleavings (xs ys : List SlotStep) : List (List SlotStep) :=
  interleavingsF (xs.length + ys.length) xs ys

/-! ## `fileserver.rs` `FileServer::handle_connection`

The handler is modelled on an existing served file, given as its byte list
(`metadata.len()` is then `file.length`) together with the path extension.
Unicode `to_lowercase`/`trim` are modelled at their ASCII behaviour, which
coincides on HTTP header text.  `end - start + 1` is a `u64` subtraction;
release-build wraparound is modelled explicitly with `% 2 ^ 64`
(a debug build would abort on the same inputs). -/

/-- ASCII lowering (Rust `to_lowercase` on header/extension text). -/
def asciiLower (s : List Char) : List Char := s.map Char.toLower

/-- Rust `str::trim` (whitespace from both ends). -/
def trimChars (s : List Char) : List Char :=
  ((s.dropWhile Char.isWhitespace).reverse.dropWhile Char.isWhitespace).reverse

/-- Split on a separator character, keeping empty segments. -/
def splitOnChar (c : Char) : List Char → List (List Char)
  | [] => [[]]
  | x :: t =>
    if x = c then [] :: splitOnChar c t
    else
      match splitOnChar c t with
      | h :: r => (x :: h) :: r
      | [] => [[x]]

/-- Strip one trailing carriage return, as Rust `str::lines` does. -/
def stripCR (l : List Char) : List Char :=
  if l.getLast? = some '\r' then l.dropLast else l

/-- Rust `str::lines`: split on `\n`, drop a trailing empty segment, strip a
trailing `\r` from each line. -/
def rust_lines (s : List Char) : List (List Char) :=
  let parts := splitOnChar '\n' s
  let parts := if parts.getLast? = some [] then parts.dropLast else parts
  parts.map stripCR

/-- `strip_prefix`-style helper: the remainder after a literal lead. -/
def dropLead (p s : List Char) : Option (List Char) :=
  if p.isPrefixOf s then some (s.drop p.length) else none

/-- The per-line closure of the `find_map` over request lines
(`fileserver.rs` lines 93–107): parse `Range: bytes=<start>-[<end>]`.
Any failure returns `none` and the search moves to the next line. -/
def parse_range_line (file_size : Nat) (line : List Char) : Option (Nat × Nat) :=
  if ¬ ("range:".toList.isPrefixOf (asciiLower line)) then none
  else
    match line.dropWhile (fun c => c != ':') with
    | [] => none
    | _ :: afterColon =>
      let val := trimChars afterColon
      match dropLead "bytes=".toList val with
      | none => none
      | some bytes_str =>
        let p1 := bytes_str.takeWhile (fun c => c != '-')
        match parse_u64 p1 with
        | none => none
        | some start =>
          let endv : Option Nat :=
            match bytes_str.dropWhile (fun c => c != '-') with
            | [] => some (file_size - 1)
            | _ :: s2 => if s2 = [] then some (file_size - 1) else parse_u64 s2
          endv.map fun e => (start, min e (file_size - 1))

/-- The `find_map` over `request.lines()`. -/
def parse_range_header (request : List Char) (file_size : Nat) :
    Option (Nat × Nat) :=
  (rust_lines request).findSome? (parse_range_line file_size)

/-- `u64` wraparound. -/
def u64_wrap (n : Nat) : Nat := n % 2 ^ 64

/-- Wrapping `u64` subtraction (release-build `a - b`). -/
def u64_sub (a b : Nat) : Nat := (a % 2 ^ 64 + 2 ^ 64 - b % 2 ^ 64) % 2 ^ 64

/-- The content-type lookup (`fileserver.rs` lines 77–90). -/
def content_type_of (ext : List Char) : String :=
  let e := String.mk (asciiLower ext)
  if e = "mp4" ∨ e = "m4v" then "video/mp4"
  else if e = "mkv" then "video/x-matroska"
  else if e = "avi" then "video/x-msvideo"
  else if e = "mov" then "video/quicktime"
  else if e = "webm" then "video/webm"
  else if e = "flv" then "video/x-flv"
  else if e = "wmv" then "video/x-ms-wmv"
  else "application/octet-stream"

/-- Status line plus serving window (`fileserver.rs` lines 109–120):
`(status_line, start, length)`. -/
def status_and_window (range : Option (Nat × Nat)) (file_size : Nat) :
    String × Nat × Nat :=
  match range with
  | some (s, e) =>
    ("HTTP/1.1 206 Partial Content\r\nContent-Range: bytes " ++ toString s ++
       "-" ++ toString e ++ "/" ++ toString file_size ++ "\r\n",
     s, u64_wrap (u64_sub e s + 1))
  | none => ("HTTP/1.1 200 OK\r\n", 0, file_size)

/-- The chunked body-streaming loop (`fileserver.rs` lines 151–165): read up
to 64 KiB at the current position, stop on EOF or once `remaining` bytes have
been sent. -/
def stream_body (file : List Nat) (pos remaining : Nat) : List Nat :=
  if remaining = 0 then []
  else
    let chunkData := (file.drop pos).take (min remaining 65536)
    if chunkData.length = 0 then []
    else
      chunkData ++ stream_body file (pos + chunkData.length)
        (remaining - chunkData.length)
termination_by remaining
decreasing_by
  rename_i h1 h2
  have h3 : 0 < chunkData.length := Nat.pos_of_ne_zero h2
  show remaining - chunkData.length < remaining
  omega

/-- A connection's observable output: the header text and, unless the
request was a `HEAD`, the streamed body bytes. -/
structure HttpResponse where
  header : String
  body : Option (List Nat)
deriving DecidableEq, Repr

/-- `FileServer::handle_connection` for an existing served file: range
parsing, header construction, the `HEAD` short-circuit (line 136,
`request.starts_with("HEAD ")` rendered as a list prefix test) and body
streaming. -/
def handle_connection (request : String) (ext : String) (file : List Nat) :
    HttpResponse :=
  let file_size := file.length
  let sw := status_and_window (parse_range_header request.toList file_size) file_size
  let header := sw.1 ++ "Content-Type: " ++ content_type_of ext.toList ++
    "\r\nContent-Length: " ++ toString sw.2.2 ++
    "\r\nAccept-Ranges: bytes\r\nConnection: close\r\n\r\n"
  if "HEAD ".toList.isPrefixOf request.toList then { header := header, body := none }
  else { header := header, body := some (stream_body file sw.2.1 sw.2.2) }

/-! ## Auxiliary lemmas -/

/-- Every match consumes a prefix: the unconsumed suffix is a suffix of the
input. -/
theorem runRE_suffix (r : RE) (c : Caps) (s : List Char) :
    ∀ x ∈ runRE r c s, ∃ pre, s = pre ++ x.2 := by
  induction r generalizing c s with
  | lit l =>
    intro x hx
    simp only [runRE] at hx
    by_cases h : l.isPrefixOf s
    · simp [h] at hx
      obtain ⟨pre, hpre⟩ := List.isPrefixOf_iff_prefix.mp h
      exact ⟨l, by simp [hx, ← hpre]⟩
    · simp [h] at hx
  | cls p =>
    intro x hx
    cases s with
    | nil => simp [runRE] at hx
    | cons a t =>
      simp only [runRE] at hx
      by_cases h : p a
      · simp [h] at hx
        exact ⟨[a], by simp [hx]⟩
      · simp [h] at hx
  | starL p =>
    intro x hx
    simp only [runRE, List.mem_map] at hx
    obtain ⟨k, _, hk⟩ := hx
    exact ⟨s.take k, by simp [← hk]⟩
  | starG p =>
    intro x hx
    simp only [runRE, List.mem_map, List.mem_reverse] at hx
    obtain ⟨k, _, hk⟩ := hx
    exact ⟨s.take k, by simp [← hk]⟩
  | seq a b iha ihb =>
    intro x hx
    simp only [runRE, List.mem_flatMap] at hx
    obtain ⟨y, hy, hx⟩ := hx
    obtain ⟨p1, hp1⟩ := iha c s y hy
    obtain ⟨p2, hp2⟩ := ihb y.1 y.2 x hx
    exact ⟨p1 ++ p2, by rw [hp1, hp2, List.append_assoc]⟩
  | option a iha =>
    intro x hx
    simp only [runRE, List.mem_append, List.mem_singleton] at hx
    cases hx with
    | inl h => exact iha c s x h
    | inr h => exact ⟨[], by simp [h]⟩
  | grp n a iha =>
    intro x hx
    simp only [runRE, List.mem_map] at hx
    obtain ⟨y, hy, hx⟩ := hx
    obtain ⟨pre, hpre⟩ := iha c s y hy
    exact ⟨pre, by rw [hpre, ← hx]⟩

/-- A successful `reFind` comes from a successful `runRE` on some suffix of
the input. -/
theorem reFind_sound (r : RE) (s : List Char) (c : Caps) :
    reFind r s = some c →
    ∃ pre t x, s = pre ++ t ∧ (c, x) ∈ runRE r {} t := by
  induction s with
  | nil =>
    intro h
    rw [reFind] at h
    match hr : runRE r {} [] with
    | (c', x) :: _ =>
      rw [hr] at h
      have hc : c = c' := by simpa using h.symm
      exact ⟨[], [], x, rfl, by rw [hr, hc]; exact List.mem_cons_self _ _⟩
    | [] =>
      rw [hr] at h
      exact absurd h (by simp)
  | cons a t ih =>
    intro h
    rw [reFind] at h
    match hr : runRE r {} (a :: t) with
    | (c', x) :: _ =>
      rw [hr] at h
      have hc : c = c' := by simpa using h.symm
      exact ⟨[], a :: t, x, rfl, by rw [hr, hc]; exact List.mem_cons_self _ _⟩
    | [] =>
      rw [hr] at h
      obtain ⟨pre, t', x, ht, hm⟩ := ih h
      exact ⟨a :: pre, t', x, by simp [ht], hm⟩

/-- A group-free pattern leaves the capture state untouched. -/
theorem runRE_grpFree (r : RE) (h : grpFree r = true) :
    ∀ c s x, x ∈ runRE r c s → x.1 = c := by
  induction r with
  | lit l =>
    intro c s x hx
    simp only [runRE] at hx
    by_cases hp : l.isPrefixOf s
    · simp [hp] at hx; simp [hx]
    · simp [hp] at hx
  | cls p =>
    intro c s x hx
    cases s with
    | nil => simp [runRE] at hx
    | cons a t =>
      simp only [runRE] at hx
      by_cases hp : p a
      · simp [hp] at hx; simp [hx]
      · simp [hp] at hx
  | starL p =>
    intro c s x hx
    simp only [runRE, List.mem_map] at hx
    obtain ⟨k, _, hk⟩ := hx
    simp [← hk]
  | starG p =>
    intro c s x hx
    simp only [runRE, List.mem_map, List.mem_reverse] at hx
    obtain ⟨k, _, hk⟩ := hx
    simp [← hk]
  | seq a b iha ihb =>
    intro c s x hx
    simp only [grpFree, Bool.and_eq_true] at h
    simp only [runRE, List.mem_flatMap] at hx
    obtain ⟨y, hy, hx⟩ := hx
    rw [ihb h.2 y.1 y.2 x hx, iha h.1 c s y hy]
  | option a iha =>
    intro c s x hx
    simp only [grpFree] at h
    simp only [runRE, List.mem_append, List.mem_singleton] at hx
    cases hx with
    | inl hm => exact iha h c s x hm
    | inr hm => simp [hm]
  | grp n a iha =>
    intro c s x hx
    simp [grpFree] at h

/-- A pattern that never writes group 1 preserves the `g1` capture. -/
theorem runRE_g1Free (r : RE) (h : g1Free r = true) :
    ∀ c s x, x ∈ runRE r c s → x.1.g1 = c.g1 := by
  induction r with
  | lit l =>
    intro c s x hx
    simp only [runRE] at hx
    by_cases hp : l.isPrefixOf s
    · simp [hp] at hx; simp [hx]
    · simp [hp] at hx
  | cls p =>
    intro c s x hx
    cases s with
    | nil => simp [runRE] at hx
    | cons a t =>
      simp only [runRE] at hx
      by_cases hp : p a
      · simp [hp] at hx; simp [hx]
      · simp [hp] at hx
  | starL p =>
    intro c s x hx
    simp only [runRE, List.mem_map] at hx
    obtain ⟨k, _, hk⟩ := hx
    simp [← hk]
  | starG p =>
    intro c s x hx
    simp only [runRE, List.mem_map, List.mem_reverse] at hx
    obtain ⟨k, _, hk⟩ := hx
    simp [← hk]
  | seq a b iha ihb =>
    intro c s x hx
    simp only [g1Free, Bool.and_eq_true] at h
    simp only [runRE, List.mem_flatMap] at hx
    obtain ⟨y, hy, hx⟩ := hx
    rw [ihb h.2 y.1 y.2 x hx, iha h.1 c s y hy]
  | option a iha =>
    intro c s x hx
    simp only [g1Free] at h
    simp only [runRE, List.mem_append, List.mem_singleton] at hx
    cases hx with
    | inl hm => exact iha h c s x hm
    | inr hm => simp [hm]
  | grp n a iha =>
    intro c s x hx
    simp only [g1Free, Bool.and_eq_true, decide_eq_true_eq] at h
    simp only [runRE, List.mem_map] at hx
    obtain ⟨y, hy, hx⟩ := hx
    have hy1 := iha h.2 c s y hy
    rw [← hx]
    cases hn : n with
    | zero => simpa [Caps.set] using hy1
    | succ m =>
      cases m with
      | zero => exact absurd hn h.1
      | succ m' =>
        cases m' with
        | zero => simpa [Caps.set] using hy1
        | succ m'' =>
          cases m'' with
          | zero => simpa [Caps.set] using hy1
          | succ _ => simpa [Caps.set] using hy1

/-- A literal consumes exactly itself and keeps the capture state. -/
theorem runRE_lit_mem (l : List Char) (c : Caps) (s : List Char) (x : Caps × List Char)
    (hx : x ∈ runRE (.lit l) c s) : x.1 = c ∧ s = l ++ x.2 := by
  simp only [runRE] at hx
  by_cases hp : l.isPrefixOf s
  · simp [hp] at hx
    obtain ⟨t, ht⟩ := List.isPrefixOf_iff_prefix.mp hp
    refine ⟨by rw [hx], ?_⟩
    rw [hx, ← ht]
    simp
  · simp [hp] at hx

/-- The streaming loop sends exactly the requested window, truncated at
end of file. -/
theorem stream_body_eq (file : List Nat) (pos remaining : Nat) :
    stream_body file pos remaining = (file.drop pos).take remaining := by
  induction remaining using Nat.strong_induction_on generalizing pos with
  | _ remaining ih =>
    rw [stream_body]
    by_cases h0 : remaining = 0
    · simp [h0]
    · simp only [h0, if_false]
      by_cases h2 : ((file.drop pos).take (min remaining 65536)).length = 0
      · simp only [h2, if_true]
        have hmin : 0 < min remaining 65536 := by omega
        have hlen : (file.drop pos).length = 0 := by
          rw [List.length_take] at h2
          omega
        rw [List.length_eq_zero.mp hlen]
        simp
      · simp only [h2, if_false]
        have hpos : 0 < ((file.drop pos).take (min remaining 65536)).length :=
          Nat.pos_of_ne_zero h2
        rw [ih _ (by omega)]
        set k := ((file.drop pos).take (min remaining 65536)).length with hk
        have hkv : k = min (min remaining 65536) (file.drop pos).length := by
          rw [hk, List.length_take]
        have hck : (file.drop pos).take (min remaining 65536) =
            (file.drop pos).take k := by
          rw [List.take_eq_take, hkv]
          omega
        have hdd : List.drop (pos + k) file = List.drop k (List.drop pos file) := by
          rw [List.drop_drop, Nat.add_comm]
        rw [hck, hdd, ← List.take_add]
        congr 1
        omega

/-- C3: starting a download while the active-job slot is non-empty fails
fast — no task or child process is spawned, the state is unchanged, the
result is an error, and (for a request that passes URL validation) the error
is the already-in-progress `DownloadError`. -/
theorem start_download_busy_fails (urlValid : Bool) (st : AppState) (hnew : Nat)
    (hbusy : st.active_download.isSome = true) :
    (start_download_model urlValid st hnew).2.1 = false ∧
    (start_download_model urlValid st hnew).1 = st ∧
    (∃ e, (start_download_model urlValid st hnew).2.2 = .error e) ∧
    (urlValid = true →
      start_download_model urlValid st hnew =
        (st, false, .error (.DownloadError "A download is already in progress"))) := by
  cases urlValid with
  | false => exact ⟨rfl, rfl, ⟨.InvalidUrl, rfl⟩, by intro h; exact absurd h (by simp)⟩
  | true =>
    unfold start_download_model
    simp [hbusy]

/-- Witness for C3 at a concrete busy state. -/
theorem start_download_busy_fails_witness :
    ((AppState.mk (some 0)).active_download.isSome = true) ∧
    ((start_download_model true (AppState.mk (some 0)) 1).2.1 = false ∧
     (start_download_model true (AppState.mk (some 0)) 1).1 = AppState.mk (some 0) ∧
     (∃ e, (start_download_model true (AppState.mk (some 0)) 1).2.2 = .error e) ∧
     (true = true →
       start_download_model true (AppState.mk (some 0)) 1 =
         (AppState.mk (some 0), false,
           .error (.DownloadError "A download is already in progress")))) :=
  ⟨rfl, start_download_busy_fails true (AppState.mk (some 0)) 1 rfl⟩

/-- C9: cancelling with no active job fails with `Cancelled` (the
nothing-running condition) and leaves the state unchanged. -/
theorem cancel_download_idle_fails (st : AppState)
    (hidle : st.active_download = none) :
    cancel_download_model st = (st, .error .Cancelled) := by
  obtain ⟨a⟩ := st
  cases a with
  | none => rfl
  | some h => exact absurd hidle (by simp)

/-- Witness for C9 at the concrete empty state. -/
theorem cancel_download_idle_fails_witness :
    (AppState.mk none).active_download = none ∧
    cancel_download_model (AppState.mk none) = (AppState.mk none, .error .Cancelled) :=
  ⟨rfl, cancel_download_idle_fails (AppState.mk none) rfl⟩

/-- C4: a cut job whose stream-copy invocation exits non-zero retries exactly
once with the re-encoding invocation — the spawned invocations are precisely
`[streamCopy, reencode]` — and a non-zero exit of the fallback is terminal
with the `CutError`. -/
theorem cut_video_failure_retries_once (primaryLines fallbackLines : List String)
    (fallbackExit : Bool) (total_us : Nat) (out : String) :
    (cut_video_model true primaryLines fallbackLines false fallbackExit total_us out).1 =
      [.streamCopy, .reencode] ∧
    (fallbackExit = false →
      (cut_video_model true primaryLines fallbackLines false fallbackExit total_us out).2.2 =
        .error (.CutError "ffmpeg encoding failed")) := by
  constructor
  · simp [cut_video_model]
  · intro hf
    subst hf
    simp [cut_video_model, cut_video_reencode_model]

/-- Witness for C4 with concrete failing runs. -/
theorem cut_video_failure_retries_once_witness :
    (cut_video_model true [] [] false false 0 "out.mp4").1 =
      [.streamCopy, .reencode] ∧
    (cut_video_model true [] [] false false 0 "out.mp4").2.2 =
      .error (.CutError "ffmpeg encoding failed") :=
  ⟨(cut_video_failure_retries_once [] [] false 0 "out.mp4").1,
   (cut_video_failure_retries_once [] [] false 0 "out.mp4").2 rfl⟩

/-- C5: a cut-progress line carrying `out_time_ms=<N>` with known total
duration `D` microseconds yields an update whose percent is
`min(100, N/D*100)`, and `0` when `D = 0` (no division is performed). -/
theorem cut_progress_percent_formula (verb line : String) (D N : Nat)
    (hN : out_time_of line = some N) :
    ∃ u, parse_cut_progress_line verb D line = some u ∧
      u.percent = (if 0 < D then min 100 ((N : ℚ) / (D : ℚ) * 100) else 0) ∧
      (D = 0 → u.percent = 0) := by
  unfold parse_cut_progress_line
  rw [hN]
  simp only [Option.map_some]
  refine ⟨_, rfl, ?_, ?_⟩
  · show cut_progress_percent N D = _
    unfold cut_progress_percent
    by_cases hD : 0 < D
    · simp only [hD, if_true]
      exact min_comm _ _
    · simp [hD]
  · intro h0
    show cut_progress_percent N D = 0
    subst h0
    simp [cut_progress_percent]

/-- Witness for C5 on the specification's example line: `out_time_ms=5000000`
with total duration `10000000` microseconds yields percent `50`. -/
theorem cut_progress_percent_formula_witness :
    out_time_of "out_time_ms=5000000" = some 5000000 ∧
    (∃ u, parse_cut_progress_line "Cutting video... " 10000000 "out_time_ms=5000000" =
        some u ∧
      u.percent = (if 0 < (10000000 : Nat) then
        min 100 ((5000000 : ℚ) / (10000000 : ℚ) * 100) else 0) ∧
      ((10000000 : Nat) = 0 → u.percent = 0)) ∧
    ((parse_cut_progress_line "Cutting video... " 10000000 "out_time_ms=5000000").map
      fun u => (u.stage, u.percent)) = some (.Cutting, 50) :=
  ⟨by decide,
   cut_progress_percent_formula "Cutting video... " "out_time_ms=5000000" 10000000 5000000
     (by decide),
   by
     have hN : out_time_of "out_time_ms=5000000" = some 5000000 := by decide
     unfold parse_cut_progress_line
     rw [hN]
     have hp : cut_progress_percent 5000000 10000000 = 50 := by
       unfold cut_progress_percent
       rw [if_pos (by norm_num), min_eq_left (by norm_num)]
       norm_num
     simp only [Option.map_some']
     rw [hp]⟩

/-- C7 (refuting the claim on the code): the download task is spawned before
its handle is stored, so the schedule in which the task finishes — and runs
its slot-clearing epilogue — before `start_download` stores the handle is a
valid interleaving of the two guarded writes; it leaves the slot populated
with the finished task's handle after the owning task has ended.  The
opposite order (store first) does empty the slot. -/
theorem slot_populated_after_task_ends :
    [SlotStep.clear, SlotStep.store 0] ∈
      interleavings [SlotStep.clear] [SlotStep.store 0] ∧
    run_slot_steps [SlotStep.clear, SlotStep.store 0] none = some 0 ∧
    run_slot_steps [SlotStep.store 0, SlotStep.clear] none = none := by
  decide

set_option maxRecDepth 8192 in
/-- C1 (refuting the claim on the code): an unparsable `Range` header does
degrade to the full file with `200 OK`, but an out-of-bounds start is served
as `206` with the out-of-bounds `Content-Range` and a `Content-Length` of
`end - start + 1` computed with `u64` wraparound: `0` for a start exactly at
the file length, and `2^64 - 1000` for start `2000` on a 1000-byte file —
not the full-file range. -/
theorem out_of_bounds_range_not_degraded :
    (handle_connection "GET /video HTTP/1.1\r\nRange: bytes=abc-\r\n\r\n" "mp4"
        (List.replicate 1000 0)).header =
      "HTTP/1.1 200 OK\r\nContent-Type: video/mp4\r\nContent-Length: 1000\r\nAccept-Ranges: bytes\r\nConnection: close\r\n\r\n" ∧
    (handle_connection "GET /video HTTP/1.1\r\nRange: bytes=1000-\r\n\r\n" "mp4"
        (List.replicate 1000 0)).header =
      "HTTP/1.1 206 Partial Content\r\nContent-Range: bytes 1000-999/1000\r\nContent-Type: video/mp4\r\nContent-Length: 0\r\nAccept-Ranges: bytes\r\nConnection: close\r\n\r\n" ∧
    (handle_connection "GET /video HTTP/1.1\r\nRange: bytes=1000-\r\n\r\n" "mp4"
        (List.replicate 1000 0)).body = some [] ∧
    (handle_connection "GET /video HTTP/1.1\r\nRange: bytes=2000-\r\n\r\n" "mp4"
        (List.replicate 1000 0)).header =
      "HTTP/1.1 206 Partial Content\r\nContent-Range: bytes 2000-999/1000\r\nContent-Type: video/mp4\r\nContent-Length: 18446744073709550616\r\nAccept-Ranges: bytes\r\nConnection: close\r\n\r\n" := by
  refine ⟨by decide, by decide, ?_, by decide⟩
  show some (stream_body (List.replicate 1000 0) 1000 0) = some []
  rw [stream_body_eq]
  simp

set_option maxRecDepth 8192 in
/-- C8: a GET with `Range: bytes=200-299` on a 1000-byte file is answered
with status 206, `Content-Range: bytes 200-299/1000`, `Content-Length: 100`,
and a body that is exactly bytes 200–299 of the file. -/
theorem range_request_206 (file : List Nat) (hlen : file.length = 1000) :
    (handle_connection "GET /video HTTP/1.1\r\nRange: bytes=200-299\r\n\r\n" "mp4"
        file).header =
      "HTTP/1.1 206 Partial Content\r\nContent-Range: bytes 200-299/1000\r\nContent-Type: video/mp4\r\nContent-Length: 100\r\nAccept-Ranges: bytes\r\nConnection: close\r\n\r\n" ∧
    (handle_connection "GET /video HTTP/1.1\r\nRange: bytes=200-299\r\n\r\n" "mp4"
        file).body = some ((file.drop 200).take 100) ∧
    ((file.drop 200).take 100).length = 100 ∧
    (∀ i, i < 100 → ((file.drop 200).take 100)[i]? = file[200 + i]?) := by
  have hr : parse_range_header
      ("GET /video HTTP/1.1\r\nRange: bytes=200-299\r\n\r\n").toList 1000 =
      some (200, 299) := by decide
  have hcond : "HEAD ".toList.isPrefixOf
      ("GET /video HTTP/1.1\r\nRange: bytes=200-299\r\n\r\n").toList = false := by decide
  have hsw : status_and_window (some (200, 299)) 1000 =
      ("HTTP/1.1 206 Partial Content\r\nContent-Range: bytes 200-299/1000\r\n",
        200, 100) := by decide
  refine ⟨?_, ?_, ?_, ?_⟩
  · simp only [handle_connection, hlen, hr, hcond, Bool.false_eq_true, if_false, hsw]
    decide
  · simp only [handle_connection, hlen, hr, hcond, Bool.false_eq_true, if_false, hsw]
    rw [stream_body_eq]
  · rw [List.length_take, List.length_drop, hlen]
    decide
  · intro i hi
    rw [List.getElem?_take_of_lt hi, List.getElem?_drop]

/-- Witness for C8 on a concrete 1000-byte file. -/
theorem range_request_206_witness :
    (List.replicate 1000 (0 : Nat)).length = 1000 ∧
    ((handle_connection "GET /video HTTP/1.1\r\nRange: bytes=200-299\r\n\r\n" "mp4"
        (List.replicate 1000 0)).header =
      "HTTP/1.1 206 Partial Content\r\nContent-Range: bytes 200-299/1000\r\nContent-Type: video/mp4\r\nContent-Length: 100\r\nAccept-Ranges: bytes\r\nConnection: close\r\n\r\n" ∧
    (handle_connection "GET /video HTTP/1.1\r\nRange: bytes=200-299\r\n\r\n" "mp4"
        (List.replicate 1000 0)).body =
      some (((List.replicate 1000 (0 : Nat)).drop 200).take 100) ∧
    (((List.replicate 1000 (0 : Nat)).drop 200).take 100).length = 100 ∧
    (∀ i, i < 100 → (((List.replicate 1000 (0 : Nat)).drop 200).take 100)[i]? =
      (List.replicate 1000 (0 : Nat))[200 + i]?)) :=
  ⟨List.length_replicate 1000 0, range_request_206 (List.replicate 1000 0) (List.length_replicate 1000 0)⟩

/-- C10: any request whose leading token is not `HEAD ` is served exactly as
a GET — the headers are written and the computed range window is streamed —
and in particular a POST carrying a Range header receives the identical
response to the same GET. -/
theorem non_head_request_streams_like_get :
    (∀ (request ext : String) (file : List Nat),
      "HEAD ".toList.isPrefixOf request.toList = false →
      handle_connection request ext file =
        { header := (status_and_window
              (parse_range_header request.toList file.length) file.length).1 ++
            "Content-Type: " ++ content_type_of ext.toList ++
            "\r\nContent-Length: " ++ toString (status_and_window
              (parse_range_header request.toList file.length) file.length).2.2 ++
            "\r\nAccept-Ranges: bytes\r\nConnection: close\r\n\r\n",
          body := some ((file.drop (status_and_window
              (parse_range_header request.toList file.length) file.length).2.1).take
            (status_and_window
              (parse_range_header request.toList file.length) file.length).2.2) }) ∧
    (∀ file : List Nat,
      handle_connection "POST /video HTTP/1.1\r\nRange: bytes=10-19\r\n\r\n" "mp4" file =
        handle_connection "GET /video HTTP/1.1\r\nRange: bytes=10-19\r\n\r\n" "mp4" file) := by
  constructor
  · intro request ext file hm
    simp only [handle_connection, hm, Bool.false_eq_true, if_false]
    rw [stream_body_eq]
  · intro file
    rfl

/-- Witness for C10: a concrete POST request is served with headers and body. -/
theorem non_head_request_streams_like_get_witness :
    ("HEAD ".toList.isPrefixOf
      ("POST /video HTTP/1.1\r\nRange: bytes=10-19\r\n\r\n").toList = false) ∧
    handle_connection "POST /video HTTP/1.1\r\nRange: bytes=10-19\r\n\r\n" "mp4" [7, 8, 9] =
      { header := (status_and_window
            (parse_range_header
              ("POST /video HTTP/1.1\r\nRange: bytes=10-19\r\n\r\n").toList
              ([7, 8, 9] : List Nat).length) ([7, 8, 9] : List Nat).length).1 ++
          "Content-Type: " ++ content_type_of "mp4".toList ++
          "\r\nContent-Length: " ++ toString (status_and_window
            (parse_range_header
              ("POST /video HTTP/1.1\r\nRange: bytes=10-19\r\n\r\n").toList
              ([7, 8, 9] : List Nat).length) ([7, 8, 9] : List Nat).length).2.2 ++
          "\r\nAccept-Ranges: bytes\r\nConnection: close\r\n\r\n",
        body := some ((([7, 8, 9] : List Nat).drop (status_and_window
            (parse_range_header
              ("POST /video HTTP/1.1\r\nRange: bytes=10-19\r\n\r\n").toList
              ([7, 8, 9] : List Nat).length) ([7, 8, 9] : List Nat).length).2.1).take
          (status_and_window
            (parse_range_header
              ("POST /video HTTP/1.1\r\nRange: bytes=10-19\r\n\r\n").toList
              ([7, 8, 9] : List Nat).length) ([7, 8, 9] : List Nat).length).2.2) } :=
  ⟨by decide,
   non_head_request_streams_like_get.1
     "POST /video HTTP/1.1\r\nRange: bytes=10-19\r\n\r\n" "mp4" [7, 8, 9] (by decide)⟩

/-- Every update the download-line handling emits is a `Downloading` one. -/
theorem parse_progress_line_stage (line : String) (u : ProgressUpdate)
    (h : parse_progress_line line = some u) : u.stage = .Downloading := by
  unfold parse_progress_line at h
  cases hf : reFind progress_regex line.toList with
  | none => rw [hf] at h; simp at h
  | some caps =>
    rw [hf] at h
    simp only [Option.map_some', Option.some_inj] at h
    rw [← h]

/-- C6: when the download process exits non-zero, the event stream the task
emits is the forwarded (non-`Error`) progress updates followed by exactly one
`Error`-stage update carrying the failure text and then the terminal
`download-error` event with the same text: the sink sees exactly one
`Error`-stage update, before the error surfaces. -/
theorem download_failure_single_error_update (stdoutLines : List String) (out : String) :
    ∃ errU : ProgressUpdate,
      start_download_task_events (download_video_model stdoutLines false out).1
          (download_video_model stdoutLines false out).2 out =
        ((download_video_model stdoutLines false out).1.map AppEvent.progress) ++
          [AppEvent.progress errU, AppEvent.downloadError errU.message] ∧
      errU.stage = .Error ∧
      errU.message = "Download failed: Download failed" ∧
      (((download_video_model stdoutLines false out).1.map AppEvent.progress).countP
        AppEvent.isErrorProgress = 0) ∧
      ((start_download_task_events (download_video_model stdoutLines false out).1
          (download_video_model stdoutLines false out).2 out).countP
        AppEvent.isErrorProgress = 1) := by
  have hdvm : download_video_model stdoutLines false out =
      (downloadStartUpdate :: stdoutLines.filterMap parse_progress_line,
        .error (.DownloadError "Download failed")) := rfl
  have hzero : ((downloadStartUpdate ::
      stdoutLines.filterMap parse_progress_line).map AppEvent.progress).countP
      AppEvent.isErrorProgress = 0 := by
    rw [List.countP_eq_zero]
    intro ev hev
    obtain ⟨u, hu, rfl⟩ := List.mem_map.mp hev
    have hst : u.stage = ProgressStage.Downloading := by
      rcases List.mem_cons.mp hu with h | h
      · rw [h]; rfl
      · obtain ⟨line, _, hp⟩ := List.mem_filterMap.mp h
        exact parse_progress_line_stage line u hp
    simp [AppEvent.isErrorProgress, hst]
  refine ⟨{ stage := .Error, percent := 0,
            message := (AppError.DownloadError "Download failed").display,
            speed := none, eta := none }, ?_, rfl, rfl, ?_, ?_⟩
  · rfl
  · rw [hdvm]
    exact hzero
  · rw [hdvm]
    unfold start_download_task_events
    dsimp only
    rw [List.countP_append, hzero]
    rfl

/-- Destructor for sequencing. -/
theorem runRE_seq_elim {a b : RE} {c : Caps} {s : List Char} {x : Caps × List Char}
    (hx : x ∈ runRE (.seq a b) c s) :
    ∃ y ∈ runRE a c s, x ∈ runRE b y.1 y.2 := by
  simp only [runRE, List.mem_flatMap] at hx
  exact hx

/-- Destructor for capture groups. -/
theorem runRE_grp_elim {n : Nat} {a : RE} {c : Caps} {s : List Char} {x : Caps × List Char}
    (hx : x ∈ runRE (.grp n a) c s) :
    ∃ y ∈ runRE a c s, x = (y.1.set n (s.take (s.length - y.2.length)), y.2) := by
  simp only [runRE, List.mem_map] at hx
  obtain ⟨y, hy, hxy⟩ := hx
  exact ⟨y, hy, hxy.symm⟩

/-- Any update emitted for a line comes from a percentage written in the
line: the line splits as `pre ++ g ++ '%' :: rest` with the percent equal to
the parsed value of `g` (the group-1 capture). -/
theorem parse_progress_line_marker (line : String) (u : ProgressUpdate)
    (h : parse_progress_line line = some u) :
    ∃ pre g rest, line.toList = pre ++ g ++ '%' :: rest ∧
      u.percent = (decimalValue g).getD 0 := by
  unfold parse_progress_line at h
  cases hf : reFind progress_regex line.toList with
  | none => rw [hf] at h; simp at h
  | some caps =>
    rw [hf] at h
    simp only [Option.map_some', Option.some_inj] at h
    obtain ⟨pre0, t, x, hline, hmem⟩ := reFind_sound _ _ _ hf
    unfold progress_regex at hmem
    obtain ⟨y1, hy1, hm1⟩ := runRE_seq_elim hmem
    obtain ⟨hy1c, hy1s⟩ := runRE_lit_mem _ _ _ _ hy1
    obtain ⟨y2, hy2, hm2⟩ := runRE_seq_elim hm1
    obtain ⟨w2, hw2⟩ := runRE_suffix _ _ _ _ hy2
    obtain ⟨y3, hy3, hm3⟩ := runRE_seq_elim hm2
    obtain ⟨z, hz, hy3e⟩ := runRE_grp_elim hy3
    obtain ⟨g0, hg0⟩ := runRE_suffix _ _ _ _ hz
    obtain ⟨y4, hy4, hm4⟩ := runRE_seq_elim hm3
    obtain ⟨hy4c, hy4s⟩ := runRE_lit_mem _ _ _ _ hy4
    have hcapsg1 : caps.g1 = y4.1.g1 := runRE_g1Free _ (by rfl) _ _ _ hm4
    have hg : y2.2.take (y2.2.length - z.2.length) = g0 := by
      rw [hg0, List.length_append, Nat.add_sub_cancel]
      exact List.take_left _ _
    have hy32 : y3.2 = z.2 := by rw [hy3e]
    have hg1 : caps.g1 = some g0 := by
      rw [hcapsg1, hy4c, hy3e]
      show (z.1.set 1 (y2.2.take (y2.2.length - z.2.length))).g1 = some g0
      rw [hg]
      rfl
    refine ⟨pre0 ++ "[download]".toList ++ w2, g0, y4.2, ?_, ?_⟩
    · rw [hline, hy1s, hw2, hg0, ← hy32, hy4s]
      simp [List.append_assoc]
    · rw [← h]
      show (caps.g1.bind decimalValue).getD 0 = (decimalValue g0).getD 0
      rw [hg1]
      rfl

set_option maxRecDepth 8192 in
/-- The engine's captures on the specification's example line: the
percentage and the ETA are captured, the speed group is not (the lazy gap
before the optional speed group already consumes the speed token). -/
theorem reFind_example_line :
    reFind progress_regex
      "[download]  42.5% of 10.00MiB at 1.20MiB/s ETA 00:05".toList =
      some { g1 := some "42.5".toList, g2 := none, g3 := some "00:05".toList } := by
  decide

set_option maxRecDepth 8192 in
/-- C2 (refuting the claim as stated): on the specification's own example
line the speed token is not captured — the update carries `speed = none`,
not `some "1.20MiB/s"` — and a percentage line without an `ETA` token
(yt-dlp's final summary line) produces no update even though its percentage
lies in `[0,100]`. -/
theorem download_speed_not_captured :
    ((parse_progress_line
        "[download]  42.5% of 10.00MiB at 1.20MiB/s ETA 00:05").map
      fun u => u.speed) = some none ∧
    parse_progress_line "[download] 100% of 10.00MiB in 00:05" = none := by
  constructor
  · unfold parse_progress_line
    rw [reFind_example_line]
    rfl
  · have hnone : reFind progress_regex
        "[download] 100% of 10.00MiB in 00:05".toList = none := by decide
    unfold parse_progress_line
    rw [hnone]
    rfl

set_option maxRecDepth 8192 in
/-- C2 (amended): every emitted update is a `Downloading` one whose percent
is exactly the decimal value written immediately before a `%` marker in the
line; a line with no `%` marker produces no update; and the example line
`[download]  42.5% of 10.00MiB at 1.20MiB/s ETA 00:05` yields stage
`Downloading`, percent `42.5`, eta `"00:05"` — but `speed = none`, since the
pattern's lazy gap consumes the speed token. -/
theorem download_percent_extraction :
    (∀ (line : String) (u : ProgressUpdate), parse_progress_line line = some u →
      u.stage = .Downloading ∧
      ∃ pre g rest, line.toList = pre ++ g ++ '%' :: rest ∧
        u.percent = (decimalValue g).getD 0) ∧
    (∀ line : String, '%' ∉ line.toList → parse_progress_line line = none) ∧
    ((parse_progress_line
        "[download]  42.5% of 10.00MiB at 1.20MiB/s ETA 00:05").map
      fun u => (u.stage, u.percent, u.speed, u.eta)) =
      some (.Downloading, 42.5, none, some "00:05") := by
  refine ⟨?_, ?_, ?_⟩
  · intro line u hp
    exact ⟨parse_progress_line_stage line u hp, parse_progress_line_marker line u hp⟩
  · intro line hnot
    cases hp : parse_progress_line line with
    | none => rfl
    | some u =>
      obtain ⟨pre, g, rest, hsplit, _⟩ := parse_progress_line_marker line u hp
      exact absurd (show '%' ∈ line.toList by rw [hsplit]; simp) hnot
  · unfold parse_progress_line
    rw [reFind_example_line]
    simp only [Option.map_some', Option.some_inj]
    have hp : (((some ("42.5".toList) : Option (List Char)).bind decimalValue).getD 0 : ℚ)
        = 42.5 := by
      show ((decimalValue "42.5".toList).getD 0 : ℚ) = 42.5
      have h42 : digitsVal ['4', '2'] = 42 := by decide
      have h5 : digitsVal ['5'] = 5 := by decide
      rw [show decimalValue "42.5".toList =
        some ((digitsVal ['4', '2'] : ℚ) +
          (digitsVal ['5'] : ℚ) / 10 ^ (['5'] : List Char).length) from rfl]
      rw [h42, h5]
      norm_num
    rw [hp]
    rfl

set_option maxRecDepth 8192 in
/-- Witness for C2 on the example line and on a line with no percentage
marker. -/
theorem download_percent_extraction_witness :
    (∃ u, parse_progress_line
        "[download]  42.5% of 10.00MiB at 1.20MiB/s ETA 00:05" = some u ∧
      u.stage = .Downloading ∧
      ∃ pre g rest,
        ("[download]  42.5% of 10.00MiB at 1.20MiB/s ETA 00:05").toList =
          pre ++ g ++ '%' :: rest ∧
        u.percent = (decimalValue g).getD 0) ∧
    ('%' ∉ "[youtube] Extracting URL".toList ∧
      parse_progress_line "[youtube] Extracting URL" = none) := by
  constructor
  · cases hpe : parse_progress_line
        "[download]  42.5% of 10.00MiB at 1.20MiB/s ETA 00:05" with
    | none =>
      refine absurd hpe ?_
      unfold parse_progress_line
      rw [reFind_example_line]
      simp
    | some u =>
      obtain ⟨h1, h2⟩ := download_percent_extraction.1
        "[download]  42.5% of 10.00MiB at 1.20MiB/s ETA 00:05" u hpe
      exact ⟨u, rfl, h1, h2⟩
  · exact ⟨by decide,
      download_percent_extraction.2.1 "[youtube] Extracting URL" (by decide)⟩
